import Mathlib

/-!
Shallow embedding of src/compiler/rustc_middle/src/ty/vtable.rs: the vtable
builder (vtable_allocation_provider), its helper constants and queries, and
the layout-word packing. Machine integers (u64, usize) are modelled as Nat
with explicit reductions modulo 2 ^ 64 where the source wraps; fatal panics
and failed assertions are modelled as the error branch of Except.
-/

namespace Vtable

/-- An interned allocation identifier (mir::interpret::AllocId). -/
structure AllocId where
  ident : Nat
deriving DecidableEq, Repr

/-- A monomorphic function instance (ty::Instance). Opaque identity. -/
structure Instance where
  ident : Nat
deriving DecidableEq, Repr

/-- A CTFE pointer: either null or backed by an allocation. -/
inductive Pointer where
  | null
  | alloc (a : AllocId)
deriving DecidableEq, Repr

/-- A pointer-sized scalar value written into the vtable allocation:
either a pointer (with provenance) or a raw unsigned integer tagged with
its byte width. -/
inductive Scalar where
  | ptr (p : Pointer)
  | uint (v : Nat) (size : Nat)
deriving DecidableEq, Repr

/-- Scalar::from_pointer. -/
def Scalar.from_pointer (p : Pointer) : Scalar := .ptr p

/-- Scalar::from_maybe_pointer; for Pointer::null this yields the null
pointer value. -/
def Scalar.from_maybe_pointer (p : Pointer) : Scalar := .ptr p

/-- Scalar::from_uint packs an unsigned value into a scalar of the given
byte width; in the source an out-of-range value is a panic (fatal abort),
modelled here as none. -/
def Scalar.from_uint (v : Nat) (size : Nat) : Option Scalar :=
  if v < 2 ^ (8 * size) then some (.uint v size) else none

/-- A fully concrete type, exposing exactly what the builder consumes from
the layout query: byte size, byte alignment, sizedness, and needs-drop. -/
structure Ty where
  ident : Nat
  sizeBytes : Nat
  alignBytes : Nat
  isSized : Bool
  needsDrop : Bool
deriving DecidableEq, Repr

/-- One vtable entry (VtblEntry). A TraitVPtr entry carries the identity of
the supertrait reference together with the entry schema that the external
vtable_entries query returns for it, so that the recursive build over the
supertrait table is structural. -/
inductive VtblEntry where
  | metadataDropInPlace
  | metadataTyLayout
  | vacant
  | method (inst : Instance)
  | traitVPtr (ident : Nat) (superEntries : List VtblEntry)
deriving Repr

/-- A trait reference specialized to a concrete type (erased): opaque
identity plus the entry schema the external provider derives from it. -/
structure TraitRef where
  ident : Nat
  entries : List VtblEntry

/-- TyCtxt::COMMON_VTABLE_ENTRIES: the header shared by every table. -/
def COMMON_VTABLE_ENTRIES : List VtblEntry :=
  [.metadataDropInPlace, .metadataTyLayout]

def VTABLE_DROPINPLACE_OFFSET : Nat := 0

def VTABLE_LAYOUT_OFFSET : Nat := 1

/-- The slice of context the builder consumes: target data layout plus the
external queries and interning tables (schema count query, polymorphize,
drop-glue resolution, function-pointer interning, allocation interning). -/
structure TyCtxt where
  ptrSizeBytes : Nat
  countVtableEntriesQuery : TraitRef → Nat
  polymorphize : Instance → Instance
  resolveDropInPlace : Ty → Instance
  fnAllocId : Instance → AllocId
  memAllocId : List (Option Scalar) → AllocId

/-- count_vtable_entries: the externally declared, authoritative entry
count for a key. -/
def count_vtable_entries (tcx : TyCtxt) : Option TraitRef → Nat
  | some tr => tcx.countVtableEntriesQuery tr
  | none => COMMON_VTABLE_ENTRIES.length

/-- get_vtable_metadata_index. -/
def get_vtable_metadata_index (tcx : TyCtxt) (tr : Option TraitRef) : Nat :=
  count_vtable_entries tcx tr - COMMON_VTABLE_ENTRIES.length

/-- The fatal abort conditions of vtable_allocation_provider: the
entry-count assert_eq, the is_sized assert, and the Scalar::from_uint
panic on an over-wide layout word. -/
inductive BuildError where
  | entryCountMismatch
  | unsizedType
  | scalarTooBig
deriving DecidableEq, Repr

/-- The packed layout word, computed in 64-bit arithmetic exactly as the
source line: size shifted left by one (u64, high bit discarded), bitwise
or with the alignment. -/
def layoutWord (ty : Ty) : Nat :=
  (ty.sizeBytes <<< 1) % 2 ^ 64 ||| ty.alignBytes

/-- The slot written for the MetadataDropInPlace entry: drop glue pointer
when the type needs drop, else a null pointer value. -/
def dropWord (tcx : TyCtxt) (ty : Ty) : Scalar :=
  if ty.needsDrop then
    Scalar.from_pointer (.alloc (tcx.fnAllocId (tcx.resolveDropInPlace ty)))
  else
    Scalar.from_maybe_pointer .null

/-- The write loop of vtable_allocation_provider: one Option Scalar per
entry in order (none models a slot left uninitialized by the Vacant
continue). A TraitVPtr entry re-enters the vtable_allocation query for
(ty, Some(super)); the query is the cached, deterministic provider, so its
body (assert, sized check, recursive build, interning) is inlined here. -/
def buildWords (tcx : TyCtxt) (ty : Ty) : List VtblEntry → Except BuildError (List (Option Scalar))
  | [] => .ok []
  | e :: rest =>
    let w : Except BuildError (Option Scalar) :=
      match e with
      | .metadataDropInPlace => .ok (some (dropWord tcx ty))
      | .metadataTyLayout =>
        match Scalar.from_uint (layoutWord ty) tcx.ptrSizeBytes with
        | some s => .ok (some s)
        | none => .error .scalarTooBig
      | .vacant => .ok none
      | .method inst =>
        .ok (some (Scalar.from_pointer (.alloc (tcx.fnAllocId (tcx.polymorphize inst)))))
      | .traitVPtr i es =>
        if es.length ≠ tcx.countVtableEntriesQuery ⟨i, es⟩ then
          .error .entryCountMismatch
        else if ty.isSized = false then
          .error .unsizedType
        else
          match buildWords tcx ty es with
          | .ok ws => .ok (some (Scalar.from_pointer (.alloc (tcx.memAllocId ws))))
          | .error err => .error err
    match w with
    | .error err => .error err
    | .ok wv =>
      match buildWords tcx ty rest with
      | .error err => .error err
      | .ok ws => .ok (wv :: ws)

/-- vtable_allocation_provider up to (but not including) the final
interning step: the schema lookup, the count assert, the sized assert, and
the word-by-word build, yielding the finished immutable blob contents. -/
def vtable_blob (tcx : TyCtxt) (key : Ty × Option TraitRef) : Except BuildError (List (Option Scalar)) :=
  let ty := key.1
  let vtable_entries : List VtblEntry :=
    match key.2 with
    | some tr => tr.entries
    | none => COMMON_VTABLE_ENTRIES
  if vtable_entries.length ≠ count_vtable_entries tcx key.2 then
    .error .entryCountMismatch
  else if ty.isSized = false then
    .error .unsizedType
  else
    buildWords tcx ty vtable_entries

/-- vtable_allocation_provider: build the blob and intern it, returning
the AllocId of the read-only allocation. -/
def vtable_allocation_provider (tcx : TyCtxt) (key : Ty × Option TraitRef) : Except BuildError AllocId :=
  (vtable_blob tcx key).map tcx.memAllocId

/-- The word computed for a single entry, with the TraitVPtr case routed
through the vtable query for the supertrait key. Extensionally equal to
the per-entry step of buildWords (proved below); used to state slot-wise
properties of a finished blob. -/
def entryWordE (tcx : TyCtxt) (ty : Ty) : VtblEntry → Except BuildError (Option Scalar)
  | .metadataDropInPlace => .ok (some (dropWord tcx ty))
  | .metadataTyLayout =>
    match Scalar.from_uint (layoutWord ty) tcx.ptrSizeBytes with
    | some s => .ok (some s)
    | none => .error .scalarTooBig
  | .vacant => .ok none
  | .method inst =>
    .ok (some (Scalar.from_pointer (.alloc (tcx.fnAllocId (tcx.polymorphize inst)))))
  | .traitVPtr i es =>
    match vtable_blob tcx (ty, some ⟨i, es⟩) with
    | .ok ws => .ok (some (Scalar.from_pointer (.alloc (tcx.memAllocId ws))))
    | .error err => .error err

/-- What the finished blob holds at a slot, as a function of the entry the
schema put there: the drop word, the packed layout word (which must have
fit), nothing for Vacant, the interned function pointer for a method, and
a pointer to the interned supertrait blob for TraitVPtr. -/
def entrySlotSpec (tcx : TyCtxt) (ty : Ty) : VtblEntry → Option Scalar → Prop
  | .metadataDropInPlace, w => w = some (dropWord tcx ty)
  | .metadataTyLayout, w =>
    layoutWord ty < 2 ^ (8 * tcx.ptrSizeBytes) ∧
      w = some (.uint (layoutWord ty) tcx.ptrSizeBytes)
  | .vacant, w => w = none
  | .method m, w => w = some (.ptr (.alloc (tcx.fnAllocId (tcx.polymorphize m))))
  | .traitVPtr i es, w =>
    ∃ subws, vtable_blob tcx (ty, some ⟨i, es⟩) = .ok subws ∧
      w = some (.ptr (.alloc (tcx.memAllocId subws)))

/-- Number of DispatchMethod entries in a schema (the k of the spec). -/
def countMethods : List VtblEntry → Nat
  | [] => 0
  | .method _ :: rest => countMethods rest + 1
  | _ :: rest => countMethods rest

/-- Number of Vacant entries in a schema (the v of the spec). -/
def countVacant : List VtblEntry → Nat
  | [] => 0
  | .vacant :: rest => countVacant rest + 1
  | _ :: rest => countVacant rest

/-- How many times a build over the given schema invokes the
function-pointer resolver in the Method arm (reserve_and_set_fn_alloc for
a dispatchable method), recursing into supertrait builds; the Vacant arm
is a continue and contributes nothing. -/
def methodResolverCalls : List VtblEntry → Nat
  | [] => 0
  | .method _ :: rest => methodResolverCalls rest + 1
  | .traitVPtr _ es :: rest => methodResolverCalls es + methodResolverCalls rest
  | _ :: rest => methodResolverCalls rest

/-- An entry that is either Vacant or a dispatchable method: the shape of
every non-header slot in the schema of C3. -/
def flatEntry (e : VtblEntry) : Prop :=
  e = .vacant ∨ ∃ m, e = .method m

/-- The word such a flat entry contributes: the interned function pointer
for a method, an untouched (uninitialized) slot for Vacant. -/
def flatWordF (tcx : TyCtxt) : VtblEntry → Option Scalar
  | .method m => some (.ptr (.alloc (tcx.fnAllocId (tcx.polymorphize m))))
  | _ => none

mutual

/-- Structural equality test on entries, used as the cache key test. -/
def VtblEntry.beq : VtblEntry → VtblEntry → Bool
  | .metadataDropInPlace, .metadataDropInPlace => true
  | .metadataTyLayout, .metadataTyLayout => true
  | .vacant, .vacant => true
  | .method a, .method b => a == b
  | .traitVPtr i es, .traitVPtr j fs => i == j && VtblEntry.beqList es fs
  | _, _ => false

def VtblEntry.beqList : List VtblEntry → List VtblEntry → Bool
  | [], [] => true
  | e :: es, f :: fs => VtblEntry.beq e f && VtblEntry.beqList es fs
  | _, _ => false

end

/-- Structural equality test on trait references. -/
def TraitRef.beq : TraitRef → TraitRef → Bool
  | ⟨i, es⟩, ⟨j, fs⟩ => i == j && VtblEntry.beqList es fs

/-- Structural equality test on cache keys. -/
def keyBeq : Ty × Option TraitRef → Ty × Option TraitRef → Bool
  | (t, none), (u, none) => t == u
  | (t, some a), (u, some b) => t == u && TraitRef.beq a b
  | _, _ => false

/-- Modelled from the spec: the memoization state of the Table Cache (the
query-system cache, which is outside the sampled sources); each successful
build is stored keyed by (ConcreteType, TraitRef?). -/
abbrev CacheState : Type :=
  List ((Ty × Option TraitRef) × List (Option Scalar))

/-- Modelled from the spec: cache lookup by structural key equality. -/
def cacheLookup (st : CacheState) (key : Ty × Option TraitRef) :
    Option (List (Option Scalar)) :=
  match st with
  | [] => none
  | (k, b) :: rest => if keyBeq key k then some b else cacheLookup rest key

/-- Modelled from the spec: getOrBuild, the sole public operation of the
Table Cache. On a hit it returns the stored blob with zero resolver
invocations; on a miss it runs the Builder (vtable_blob), memoizes a
success, and reports the number of Method-arm resolver invocations the
build performed; a Builder fault propagates and is not memoized. -/
def getOrBuild (tcx : TyCtxt) (st : CacheState) (key : Ty × Option TraitRef) :
    Except BuildError (List (Option Scalar) × CacheState × Nat) :=
  match cacheLookup st key with
  | some b => .ok (b, st, 0)
  | none =>
    match vtable_blob tcx key with
    | .error e => .error e
    | .ok b =>
      .ok (b, (key, b) :: st,
        methodResolverCalls
          (match key.2 with
           | some tr => tr.entries
           | none => COMMON_VTABLE_ENTRIES))

/-- A concrete 8-byte, 4-byte aligned type with no drop requirement (the T
of the worked example). -/
def tyW : Ty := ⟨0, 8, 4, true, false⟩

/-- A concrete unsized type. -/
def tyUnsized : Ty := ⟨1, 0, 1, false, false⟩

/-- A concrete context: 64-bit target, count query that agrees with the
schema length, injective interning tables. -/
def tcxW : TyCtxt :=
  ⟨8, fun tr => tr.entries.length, id, fun _ => ⟨0⟩,
    fun i => ⟨i.ident + 1⟩, fun ws => ⟨ws.length + 100⟩⟩

/-- The single dispatchable method render of the example trait Show. -/
def instRender : Instance := ⟨1⟩

/-- The example trait Show: header plus one dispatchable method, no
vacant slots. -/
def showTr : TraitRef :=
  ⟨7, [.metadataDropInPlace, .metadataTyLayout, .method instRender]⟩

/-- A context whose declared entry count disagrees with every schema. -/
def tcxMismatch : TyCtxt :=
  ⟨8, fun _ => 5, id, fun _ => ⟨0⟩, fun i => ⟨i.ident + 1⟩, fun ws => ⟨ws.length + 100⟩⟩

/-- A context for a 32-bit target (4-byte pointers). -/
def tcx32 : TyCtxt :=
  ⟨4, fun tr => tr.entries.length, id, fun _ => ⟨0⟩,
    fun i => ⟨i.ident + 1⟩, fun ws => ⟨ws.length + 100⟩⟩

/-- A sized type whose packed layout word exceeds a 32-bit word: size
2 ^ 40 bytes, alignment 1. -/
def tyBig : Ty := ⟨2, 2 ^ 40, 1, true, false⟩

/-- The entry schema the provider hands the builder for a key: the trait
schema, or the common header when no trait is present. -/
def schemaOf : Option TraitRef → List VtblEntry
  | some tr => tr.entries
  | none => COMMON_VTABLE_ENTRIES

/-- A supertrait A with a header-only schema. -/
def superTr : TraitRef := ⟨3, [.metadataDropInPlace, .metadataTyLayout]⟩

/-- A trait B with supertrait A: header, one method, one supertrait
pointer slot. -/
def subTr : TraitRef :=
  ⟨4, [.metadataDropInPlace, .metadataTyLayout, .method instRender,
    .traitVPtr 3 [.metadataDropInPlace, .metadataTyLayout]]⟩

/-- A trait with one dispatchable method and one vacant slot. -/
def vacTr : TraitRef :=
  ⟨9, [.metadataDropInPlace, .metadataTyLayout, .method instRender, .vacant]⟩

mutual

theorem VtblEntry.beq_refl : (e : VtblEntry) → VtblEntry.beq e e = true
  | .metadataDropInPlace => rfl
  | .metadataTyLayout => rfl
  | .vacant => rfl
  | .method a => by simp [VtblEntry.beq]
  | .traitVPtr i es => by simp [VtblEntry.beq, VtblEntry.beqList_refl es]

theorem VtblEntry.beqList_refl : (es : List VtblEntry) → VtblEntry.beqList es es = true
  | [] => rfl
  | e :: es => by
    simp [VtblEntry.beqList, VtblEntry.beq_refl e, VtblEntry.beqList_refl es]

end

theorem keyBeq_refl (k : Ty × Option TraitRef) : keyBeq k k = true := by
  rcases k with ⟨t, _ | ⟨i, es⟩⟩
  · simp [keyBeq]
  · simp [keyBeq, TraitRef.beq, VtblEntry.beqList_refl]

theorem layoutWord_of_small (ty : Ty) (h : ty.sizeBytes < 2 ^ 63) :
    layoutWord ty = (ty.sizeBytes <<< 1) ||| ty.alignBytes := by
  have h2 : ty.sizeBytes <<< 1 < 2 ^ 64 := by
    rw [Nat.shiftLeft_eq, pow_one]
    calc ty.sizeBytes * 2 < 2 ^ 63 * 2 := by omega
    _ = 2 ^ 64 := by norm_num
  unfold layoutWord
  rw [Nat.mod_eq_of_lt h2]

theorem buildWords_nil (tcx : TyCtxt) (ty : Ty) : buildWords tcx ty [] = .ok [] := by
  simp [buildWords]

theorem buildWords_cons (tcx : TyCtxt) (ty : Ty) (e : VtblEntry) (rest : List VtblEntry) :
    buildWords tcx ty (e :: rest) =
      match entryWordE tcx ty e with
      | .error err => .error err
      | .ok w =>
        match buildWords tcx ty rest with
        | .error err => .error err
        | .ok ws => .ok (w :: ws) := by
  rw [buildWords.eq_def]
  cases e with
  | metadataDropInPlace => rfl
  | metadataTyLayout =>
    simp only [entryWordE]
  | vacant => rfl
  | method inst => rfl
  | traitVPtr i es =>
    simp only [entryWordE, vtable_blob, count_vtable_entries]
    by_cases hc : es.length = tcx.countVtableEntriesQuery ⟨i, es⟩
    · by_cases hs : ty.isSized = false
      · simp [hc, hs]
      · simp [hc, hs]
    · simp [hc]

theorem entryWordE_ok_spec (tcx : TyCtxt) (ty : Ty) (e : VtblEntry) (w : Option Scalar)
    (h : entryWordE tcx ty e = .ok w) : entrySlotSpec tcx ty e w := by
  cases e with
  | metadataDropInPlace =>
    simp only [entryWordE, Except.ok.injEq] at h
    simpa [entrySlotSpec] using h.symm
  | metadataTyLayout =>
    simp only [entryWordE] at h
    rcases hu : Scalar.from_uint (layoutWord ty) tcx.ptrSizeBytes with _ | s
    · rw [hu] at h; exact absurd h (by simp)
    · rw [hu] at h
      simp only [Except.ok.injEq] at h
      simp only [Scalar.from_uint] at hu
      by_cases hlt : layoutWord ty < 2 ^ (8 * tcx.ptrSizeBytes)
      · simp only [hlt, if_pos] at hu
        exact ⟨hlt, by rw [← h, ← hu]⟩
      · simp [hlt] at hu
  | vacant =>
    simp only [entryWordE, Except.ok.injEq] at h
    simpa [entrySlotSpec] using h.symm
  | method m =>
    simp only [entryWordE, Except.ok.injEq] at h
    simpa [entrySlotSpec, Scalar.from_pointer] using h.symm
  | traitVPtr i es =>
    simp only [entryWordE] at h
    rcases hb : vtable_blob tcx (ty, some ⟨i, es⟩) with err | subws
    · rw [hb] at h; exact absurd h (by simp)
    · rw [hb] at h
      simp only [Except.ok.injEq] at h
      exact ⟨subws, hb, by rw [← h]; rfl⟩

theorem buildWords_ok_length (tcx : TyCtxt) (ty : Ty) :
    ∀ (es : List VtblEntry) (ws : List (Option Scalar)),
      buildWords tcx ty es = .ok ws → ws.length = es.length := by
  intro es
  induction es with
  | nil => intro ws h; rw [buildWords_nil] at h; cases h; rfl
  | cons e rest ih =>
    intro ws h
    rw [buildWords_cons] at h
    rcases he : entryWordE tcx ty e with err | w
    · rw [he] at h; exact absurd h (by simp)
    · rw [he] at h
      rcases hr : buildWords tcx ty rest with err | tail
      · rw [hr] at h; exact absurd h (by simp)
      · rw [hr] at h
        cases h
        simp [ih tail hr]

theorem buildWords_ok_slot (tcx : TyCtxt) (ty : Ty) :
    ∀ (es : List VtblEntry) (ws : List (Option Scalar)),
      buildWords tcx ty es = .ok ws →
      ∀ (i : Nat) (e : VtblEntry), es.get? i = some e →
        ∃ w, ws.get? i = some w ∧ entrySlotSpec tcx ty e w := by
  intro es
  induction es with
  | nil => intro ws _ i e hi; simp at hi
  | cons e0 rest ih =>
    intro ws h i e hi
    rw [buildWords_cons] at h
    rcases he : entryWordE tcx ty e0 with err | w0
    · rw [he] at h; exact absurd h (by simp)
    · rw [he] at h
      rcases hr : buildWords tcx ty rest with err | tail
      · rw [hr] at h; exact absurd h (by simp)
      · rw [hr] at h
        cases h
        cases i with
        | zero =>
          simp only [List.get?_cons_zero, Option.some.injEq] at hi
          exact ⟨w0, by simp, hi ▸ entryWordE_ok_spec tcx ty e0 w0 he⟩
        | succ j =>
          simp only [List.get?_cons_succ] at hi
          obtain ⟨w, hw, hspec⟩ := ih tail hr j e hi
          exact ⟨w, by simpa using hw, hspec⟩

theorem buildWords_flat (tcx : TyCtxt) (ty : Ty) :
    ∀ es : List VtblEntry, (∀ e ∈ es, flatEntry e) →
      buildWords tcx ty es = .ok (es.map (flatWordF tcx)) := by
  intro es
  induction es with
  | nil => intro _; simp [buildWords_nil]
  | cons e rest ih =>
    intro h
    have he : flatEntry e := h e (List.mem_cons_self e rest)
    have hrest : ∀ x ∈ rest, flatEntry x := fun x hx => h x (List.mem_cons_of_mem _ hx)
    rw [buildWords_cons, ih hrest]
    rcases he with rfl | ⟨m, rfl⟩
    · simp [entryWordE, flatWordF]
    · simp [entryWordE, flatWordF, Scalar.from_pointer]

theorem flat_counts (es : List VtblEntry) (h : ∀ e ∈ es, flatEntry e) :
    countMethods es + countVacant es = es.length := by
  induction es with
  | nil => simp [countMethods, countVacant]
  | cons e rest ih =>
    have he : flatEntry e := h e (List.mem_cons_self e rest)
    have hrest := ih fun x hx => h x (List.mem_cons_of_mem _ hx)
    rcases he with rfl | ⟨m, rfl⟩
    · simp only [countMethods, countVacant, List.length_cons]
      omega
    · simp only [countMethods, countVacant, List.length_cons]
      omega

theorem flat_resolver_calls (es : List VtblEntry) (h : ∀ e ∈ es, flatEntry e) :
    methodResolverCalls es = countMethods es := by
  induction es with
  | nil => simp [methodResolverCalls, countMethods]
  | cons e rest ih =>
    have he : flatEntry e := h e (List.mem_cons_self e rest)
    have hrest := ih fun x hx => h x (List.mem_cons_of_mem _ hx)
    rcases he with rfl | ⟨m, rfl⟩
    · simpa [methodResolverCalls, countMethods] using hrest
    · simpa [methodResolverCalls, countMethods] using hrest

theorem buildWords_header (tcx : TyCtxt) (ty : Ty) (rest : List VtblEntry)
    (hfit : layoutWord ty < 2 ^ (8 * tcx.ptrSizeBytes)) :
    buildWords tcx ty (.metadataDropInPlace :: .metadataTyLayout :: rest) =
      match buildWords tcx ty rest with
      | .ok ws =>
        .ok (some (dropWord tcx ty) ::
          some (.uint (layoutWord ty) tcx.ptrSizeBytes) :: ws)
      | .error err => .error err := by
  rw [buildWords_cons, buildWords_cons]
  simp only [entryWordE, Scalar.from_uint, hfit, if_pos]
  cases buildWords tcx ty rest <;> rfl

theorem vtable_blob_none (tcx : TyCtxt) (ty : Ty) (hs : ty.isSized = true)
    (hfit : layoutWord ty < 2 ^ (8 * tcx.ptrSizeBytes)) :
    vtable_blob tcx (ty, none) =
      .ok [some (dropWord tcx ty),
        some (.uint (layoutWord ty) tcx.ptrSizeBytes)] := by
  simp only [vtable_blob, count_vtable_entries, COMMON_VTABLE_ENTRIES, hs]
  norm_num
  rw [buildWords_header tcx ty [] hfit, buildWords_nil]

theorem vtable_blob_some_ok (tcx : TyCtxt) (ty : Ty) (tr : TraitRef)
    (ws : List (Option Scalar)) (hok : vtable_blob tcx (ty, some tr) = .ok ws) :
    ty.isSized = true ∧ buildWords tcx ty tr.entries = .ok ws ∧
      tr.entries.length = count_vtable_entries tcx (some tr) := by
  simp only [vtable_blob] at hok
  rcases eq_or_ne tr.entries.length (count_vtable_entries tcx (some tr)) with hc | hc
  · cases hsz : ty.isSized with
    | false => simp [hc, hsz] at hok
    | true =>
      simp only [hc, hsz, ne_eq, not_true_eq_false, if_false, Bool.true_eq_false,
        if_neg, not_false_eq_true] at hok
      exact ⟨rfl, by simpa using hok, hc⟩
  · simp [hc] at hok

theorem vtable_blob_flat (tcx : TyCtxt) (ty : Ty) (tr : TraitRef)
    (rest : List VtblEntry)
    (hsch : tr.entries = .metadataDropInPlace :: .metadataTyLayout :: rest)
    (hflat : ∀ e ∈ rest, flatEntry e)
    (hcount : count_vtable_entries tcx (some tr) = rest.length + 2)
    (hs : ty.isSized = true)
    (hfit : layoutWord ty < 2 ^ (8 * tcx.ptrSizeBytes)) :
    vtable_blob tcx (ty, some tr) =
      .ok (some (dropWord tcx ty) ::
        some (.uint (layoutWord ty) tcx.ptrSizeBytes) :: rest.map (flatWordF tcx)) := by
  simp only [vtable_blob, hsch, hcount, hs, List.length_cons]
  norm_num
  rw [buildWords_header tcx ty rest hfit, buildWords_flat tcx ty rest hflat]

theorem methodResolverCalls_common : methodResolverCalls COMMON_VTABLE_ENTRIES = 0 := by
  simp [COMMON_VTABLE_ENTRIES, methodResolverCalls]

theorem eval_none_blob :
    vtable_blob tcxW (tyW, none) =
      .ok [some (Scalar.ptr .null), some (Scalar.uint 20 8)] := by
  rw [vtable_blob_none tcxW tyW rfl (by decide)]
  rfl

theorem eval_super_blob :
    vtable_blob tcxW (tyW, some ⟨3, [.metadataDropInPlace, .metadataTyLayout]⟩) =
      .ok [some (Scalar.ptr .null), some (Scalar.uint 20 8)] := by
  rw [vtable_blob_flat tcxW tyW ⟨3, [.metadataDropInPlace, .metadataTyLayout]⟩ []
    rfl (by intro e he; simp at he) rfl rfl (by decide)]
  rfl

theorem eval_show_blob :
    vtable_blob tcxW (tyW, some showTr) =
      .ok [some (Scalar.ptr .null), some (Scalar.uint 20 8),
        some (Scalar.ptr (.alloc ⟨2⟩))] := by
  rw [vtable_blob_flat tcxW tyW showTr [.method instRender] rfl
    (by intro e he; simp only [List.mem_singleton] at he; exact Or.inr ⟨instRender, he⟩)
    rfl rfl (by decide)]
  rfl

theorem eval_sub_blob :
    vtable_blob tcxW (tyW, some subTr) =
      .ok [some (Scalar.ptr .null), some (Scalar.uint 20 8),
        some (Scalar.ptr (.alloc ⟨2⟩)), some (Scalar.ptr (.alloc ⟨102⟩))] := by
  have hv : buildWords tcxW tyW
      [.traitVPtr 3 [.metadataDropInPlace, .metadataTyLayout]] =
      .ok [some (Scalar.ptr (.alloc ⟨102⟩))] := by
    rw [buildWords_cons, buildWords_nil]
    simp only [entryWordE]
    rw [eval_super_blob]
    rfl
  have hm : buildWords tcxW tyW
      [.method instRender, .traitVPtr 3 [.metadataDropInPlace, .metadataTyLayout]] =
      .ok [some (Scalar.ptr (.alloc ⟨2⟩)), some (Scalar.ptr (.alloc ⟨102⟩))] := by
    rw [buildWords_cons, hv]
    rfl
  simp only [vtable_blob, subTr]
  norm_num
  rw [buildWords_header tcxW tyW _ (by decide), hm]
  rfl

theorem vtable_blob_eq (tcx : TyCtxt) (ty : Ty) (otr : Option TraitRef) :
    vtable_blob tcx (ty, otr) =
      if (schemaOf otr).length ≠ count_vtable_entries tcx otr then
        .error .entryCountMismatch
      else if ty.isSized = false then .error .unsizedType
      else buildWords tcx ty (schemaOf otr) := by
  rcases otr with _ | tr <;> rfl

/-- C1: for every sized concrete type with no destruction requirement, the
table for key (T, None) has exactly 2 words: word 0 is the null pointer
value and word 1 is the single packed word (size <<< 1) ||| align, size
and alignment taken in bytes. -/
theorem C1_header_only_table (tcx : TyCtxt) (ty : Ty)
    (hsized : ty.isSized = true) (hdrop : ty.needsDrop = false)
    (hsmall : ty.sizeBytes < 2 ^ 63)
    (hfit : (ty.sizeBytes <<< 1) ||| ty.alignBytes < 2 ^ (8 * tcx.ptrSizeBytes)) :
    vtable_blob tcx (ty, none) =
      .ok [some (Scalar.ptr .null),
        some (Scalar.uint ((ty.sizeBytes <<< 1) ||| ty.alignBytes) tcx.ptrSizeBytes)] := by
  have hl := layoutWord_of_small ty hsmall
  rw [vtable_blob_none tcx ty hsized (by rw [hl]; exact hfit), hl]
  simp [dropWord, hdrop, Scalar.from_maybe_pointer]

/-- C1 witness: the concrete 8-byte, 4-aligned no-drop type on a 64-bit
target. -/
theorem C1_witness :
    vtable_blob tcxW (tyW, none) =
      .ok [some (Scalar.ptr .null), some (Scalar.uint ((8 <<< 1) ||| 4) 8)] :=
  C1_header_only_table tcxW tyW rfl rfl (by decide) (by decide)

/-- C2 counterexample: at the concrete instance (8-byte, 4-aligned type,
trait Show with single method render), the built table does not have 0x11
as its layout word; the claimed table is therefore not the built one. -/
theorem C2_counterexample :
    vtable_blob tcxW (tyW, some showTr) ≠
      .ok [some (Scalar.ptr .null), some (Scalar.uint 0x11 8),
        some (Scalar.ptr (.alloc (tcxW.fnAllocId (tcxW.polymorphize instRender))))] := by
  rw [eval_show_blob]
  simp only [ne_eq, Except.ok.injEq]
  decide

/-- C2 amended: the built table is [null, 0x14, token(render, T)] of
length 3, where 0x14 = (8 <<< 1) ||| 4 is the fixed encode for size 8 and
alignment 4. -/
theorem C2_corrected_table :
    vtable_blob tcxW (tyW, some showTr) =
      .ok [some (Scalar.ptr .null), some (Scalar.uint 0x14 8),
        some (Scalar.ptr (.alloc (tcxW.fnAllocId (tcxW.polymorphize instRender))))] ∧
      (0x14 : Nat) = (8 <<< 1) ||| 4 :=
  ⟨eval_show_blob, by decide⟩

/-- C3: for a schema of the two header entries followed by dispatchable
methods and vacant slots, the table has 2 + k + v words, each method slot
holds the resolver token for exactly that method, each vacant slot is left
unwritten, and the Method-arm resolver runs exactly k times (never for a
vacant slot). -/
theorem C3_methods_and_vacants (tcx : TyCtxt) (ty : Ty) (tr : TraitRef)
    (rest : List VtblEntry)
    (hsch : tr.entries = .metadataDropInPlace :: .metadataTyLayout :: rest)
    (hflat : ∀ e ∈ rest, flatEntry e)
    (hcount : count_vtable_entries tcx (some tr) = rest.length + 2)
    (hs : ty.isSized = true)
    (hfit : layoutWord ty < 2 ^ (8 * tcx.ptrSizeBytes)) :
    ∃ ws, vtable_blob tcx (ty, some tr) = .ok ws ∧
      ws.length = 2 + countMethods rest + countVacant rest ∧
      (∀ i m, rest.get? i = some (.method m) →
        ws.get? (i + 2) =
          some (some (Scalar.ptr (.alloc (tcx.fnAllocId (tcx.polymorphize m)))))) ∧
      (∀ i, rest.get? i = some .vacant → ws.get? (i + 2) = some none) ∧
      methodResolverCalls tr.entries = countMethods rest := by
  refine ⟨_, vtable_blob_flat tcx ty tr rest hsch hflat hcount hs hfit,
    ?_, ?_, ?_, ?_⟩
  · have := flat_counts rest hflat
    simp only [List.length_cons, List.length_map]
    omega
  · intro i m hi
    show (rest.map (flatWordF tcx)).get? i = _
    rw [List.get?_map, hi]
    rfl
  · intro i hi
    show (rest.map (flatWordF tcx)).get? i = _
    rw [List.get?_map, hi]
    rfl
  · rw [hsch]
    simp only [methodResolverCalls]
    exact flat_resolver_calls rest hflat

/-- C3 witness: trait with one method and one vacant slot on the concrete
type. -/
theorem C3_witness :
    ∃ ws, vtable_blob tcxW (tyW, some vacTr) = .ok ws ∧
      ws.length = 2 + countMethods [.method instRender, .vacant] +
        countVacant [.method instRender, .vacant] ∧
      (∀ i m, [VtblEntry.method instRender, .vacant].get? i = some (.method m) →
        ws.get? (i + 2) =
          some (some (Scalar.ptr (.alloc (tcxW.fnAllocId (tcxW.polymorphize m)))))) ∧
      (∀ i, [VtblEntry.method instRender, .vacant].get? i = some .vacant →
        ws.get? (i + 2) = some none) ∧
      methodResolverCalls vacTr.entries =
        countMethods [.method instRender, .vacant] :=
  C3_methods_and_vacants tcxW tyW vacTr [.method instRender, .vacant] rfl
    (by
      intro e he
      simp only [List.mem_cons, List.mem_singleton, List.not_mem_nil, or_false] at he
      rcases he with rfl | rfl
      · exact Or.inr ⟨instRender, rfl⟩
      · exact Or.inl rfl)
    rfl rfl (by decide)

/-- C4: whenever the schema of a trait key begins with the two header
entries, the blob built for (T, Some(trait)) begins, bit for bit, with
exactly the words the blob for (T, None) consists of: the header-only
blob is the two-word prefix of the trait blob. -/
theorem C4_shared_header (tcx : TyCtxt) (ty : Ty) (tr : TraitRef)
    (rest : List VtblEntry)
    (hsch : tr.entries = .metadataDropInPlace :: .metadataTyLayout :: rest)
    (ws : List (Option Scalar))
    (hok : vtable_blob tcx (ty, some tr) = .ok ws) :
    vtable_blob tcx (ty, none) = .ok (ws.take 2) := by
  obtain ⟨hs, hbw, _⟩ := vtable_blob_some_ok tcx ty tr ws hok
  obtain ⟨w0, hw0, hs0⟩ :=
    buildWords_ok_slot tcx ty tr.entries ws hbw 0 .metadataDropInPlace
      (by rw [hsch]; rfl)
  obtain ⟨w1, hw1, hs1⟩ :=
    buildWords_ok_slot tcx ty tr.entries ws hbw 1 .metadataTyLayout
      (by rw [hsch]; rfl)
  have hw0v : w0 = some (dropWord tcx ty) := hs0
  obtain ⟨hfit, hw1v⟩ := (hs1 : _ ∧ _)
  rcases ws with _ | ⟨a, ws'⟩
  · simp at hw0
  rcases ws' with _ | ⟨b, t⟩
  · simp at hw1
  simp only [List.get?_cons_zero, List.get?_cons_succ, Option.some.injEq] at hw0 hw1
  rw [vtable_blob_none tcx ty hs hfit]
  simp [List.take, hw0, hw1, hw0v, hw1v]

/-- C4 witness: the trait Show blob on the concrete type; its two-word
prefix is exactly the header-only blob. -/
theorem C4_witness :
    vtable_blob tcxW (tyW, none) =
      .ok ([some (Scalar.ptr .null), some (Scalar.uint 20 8),
        some (Scalar.ptr (.alloc ⟨2⟩))].take 2) :=
  C4_shared_header tcxW tyW showTr [.method instRender] rfl _ eval_show_blob

/-- C5: a TraitVPtr slot holds a pointer to exactly the blob the cached
vtable query yields for key (type, Some(super)): that key's blob exists,
the provider interns it, and the slot word is a pointer to that interned
allocation, so every per-key invariant applies to the referenced blob. -/
theorem C5_supertrait_slot (tcx : TyCtxt) (ty : Ty) (tr : TraitRef)
    (ws : List (Option Scalar)) (hok : vtable_blob tcx (ty, some tr) = .ok ws)
    (i j : Nat) (sub : List VtblEntry)
    (hi : tr.entries.get? i = some (.traitVPtr j sub)) :
    ∃ subws, vtable_blob tcx (ty, some ⟨j, sub⟩) = .ok subws ∧
      vtable_allocation_provider tcx (ty, some ⟨j, sub⟩) =
        .ok (tcx.memAllocId subws) ∧
      ws.get? i = some (some (Scalar.ptr (.alloc (tcx.memAllocId subws)))) := by
  obtain ⟨hs, hbw, _⟩ := vtable_blob_some_ok tcx ty tr ws hok
  obtain ⟨w, hw, hspec⟩ := buildWords_ok_slot tcx ty tr.entries ws hbw i _ hi
  obtain ⟨subws, hsub, hwv⟩ :=
    (hspec : ∃ subws, vtable_blob tcx (ty, some ⟨j, sub⟩) = .ok subws ∧
      w = some (.ptr (.alloc (tcx.memAllocId subws))))
  refine ⟨subws, hsub, ?_, ?_⟩
  · simp only [vtable_allocation_provider, hsub]
    rfl
  · rw [hw, hwv]

/-- C5 witness: trait B with supertrait A on the concrete type; slot 3 of
the B table points at the interned A table. -/
theorem C5_witness :
    ∃ subws, vtable_blob tcxW
        (tyW, some ⟨3, [.metadataDropInPlace, .metadataTyLayout]⟩) = .ok subws ∧
      vtable_allocation_provider tcxW
          (tyW, some ⟨3, [.metadataDropInPlace, .metadataTyLayout]⟩) =
        .ok (tcxW.memAllocId subws) ∧
      [some (Scalar.ptr .null), some (Scalar.uint 20 8),
        some (Scalar.ptr (.alloc ⟨2⟩)),
        some (Scalar.ptr (.alloc ⟨102⟩))].get? 3 =
        some (some (Scalar.ptr (.alloc (tcxW.memAllocId subws)))) :=
  C5_supertrait_slot tcxW tyW subTr _ eval_sub_blob 3 3
    [.metadataDropInPlace, .metadataTyLayout] rfl

/-- C6: getOrBuild is idempotent: after a call returns a blob, an
identical call returns the byte-identical blob, leaves the cache
unchanged, and performs zero resolver invocations, so construction (and
with it Method-arm resolution) happens at most once per key across the
two calls. -/
theorem C6_getOrBuild_idempotent (tcx : TyCtxt) (st : CacheState)
    (key : Ty × Option TraitRef) (b : List (Option Scalar)) (st1 : CacheState)
    (n : Nat) (h : getOrBuild tcx st key = .ok (b, st1, n)) :
    getOrBuild tcx st1 key = .ok (b, st1, 0) := by
  unfold getOrBuild at h ⊢
  rcases hl : cacheLookup st key with _ | b0
  · rw [hl] at h
    rcases hb : vtable_blob tcx key with e | bb
    · rw [hb] at h
      exact absurd h (by simp)
    · rw [hb] at h
      simp only [Except.ok.injEq, Prod.mk.injEq] at h
      obtain ⟨h1, h2, h3⟩ := h
      subst h1
      subst h2
      simp [cacheLookup, keyBeq_refl]
  · rw [hl] at h
    simp only [Except.ok.injEq, Prod.mk.injEq] at h
    obtain ⟨h1, h2, h3⟩ := h
    subst h1
    subst h2
    simp [hl]

/-- C6 witness: back-to-back getOrBuild calls for the header-only key on
the concrete type: one construction, byte-identical blobs, zero resolver
invocations on the second call. -/
theorem C6_witness :
    getOrBuild tcxW [] (tyW, none) =
        .ok ([some (Scalar.ptr .null), some (Scalar.uint 20 8)],
          [((tyW, none), [some (Scalar.ptr .null), some (Scalar.uint 20 8)])], 0) ∧
      getOrBuild tcxW
          [((tyW, none), [some (Scalar.ptr .null), some (Scalar.uint 20 8)])]
          (tyW, none) =
        .ok ([some (Scalar.ptr .null), some (Scalar.uint 20 8)],
          [((tyW, none), [some (Scalar.ptr .null), some (Scalar.uint 20 8)])], 0) := by
  have h1 : getOrBuild tcxW [] (tyW, none) =
      .ok ([some (Scalar.ptr .null), some (Scalar.uint 20 8)],
        [((tyW, none), [some (Scalar.ptr .null), some (Scalar.uint 20 8)])], 0) := by
    unfold getOrBuild
    rw [show cacheLookup [] (tyW, none) = none from rfl, eval_none_blob]
    rw [show methodResolverCalls
      (match (tyW, (none : Option TraitRef)).2 with
       | some tr => tr.entries
       | none => COMMON_VTABLE_ENTRIES) = 0 from methodResolverCalls_common]
  exact ⟨h1, C6_getOrBuild_idempotent tcxW [] (tyW, none) _ _ _ h1⟩

/-- C7: a request for an unsized type never returns a table: the build
aborts, and when the declared count matches the schema (so the earlier
assert passes) the abort is precisely the sized-precondition failure. -/
theorem C7_unsized_aborts (tcx : TyCtxt) (ty : Ty) (otr : Option TraitRef)
    (h : ty.isSized = false) :
    (∀ ws, vtable_blob tcx (ty, otr) ≠ .ok ws) ∧
      ((schemaOf otr).length = count_vtable_entries tcx otr →
        vtable_blob tcx (ty, otr) = .error .unsizedType) := by
  constructor
  · intro ws
    rw [vtable_blob_eq]
    by_cases hc : (schemaOf otr).length ≠ count_vtable_entries tcx otr
    · simp [hc]
    · simp [hc, h]
  · intro hcnt
    rw [vtable_blob_eq]
    simp [hcnt, h]

/-- C7 witness: the concrete unsized type aborts with the precondition
failure. -/
theorem C7_witness :
    vtable_blob tcxW (tyUnsized, none) = .error .unsizedType :=
  (C7_unsized_aborts tcxW tyUnsized none rfl).2 rfl

/-- C8: the builder emits exactly as many words as the schema length, and
a mismatch between the declared count and the schema aborts construction
with the entry-count fault. -/
theorem C8_entry_count (tcx : TyCtxt) (ty : Ty) (otr : Option TraitRef) :
    (∀ ws, vtable_blob tcx (ty, otr) = .ok ws →
      ws.length = (schemaOf otr).length) ∧
      ((schemaOf otr).length ≠ count_vtable_entries tcx otr →
        vtable_blob tcx (ty, otr) = .error .entryCountMismatch) := by
  constructor
  · intro ws hok
    rw [vtable_blob_eq] at hok
    by_cases hc : (schemaOf otr).length ≠ count_vtable_entries tcx otr
    · simp [hc] at hok
    · cases hsz : ty.isSized with
      | false => simp [hc, hsz] at hok
      | true =>
        simp only [hc, hsz, Bool.true_eq_false, if_false, if_neg,
          not_false_eq_true] at hok
        exact buildWords_ok_length tcx ty _ ws (by simpa using hok)
  · intro hc
    rw [vtable_blob_eq]
    simp [hc]

/-- C8 witness: a declared count of 5 against the 3-entry Show schema
aborts with the entry-count fault. -/
theorem C8_witness :
    vtable_blob tcxMismatch (tyW, some showTr) = .error .entryCountMismatch :=
  (C8_entry_count tcxMismatch tyW (some showTr)).2 (by decide)

/-- C9: the layout word is computed in 64-bit arithmetic as the bitwise
or of the size shifted left by one and the alignment; when it fits the
pointer width the layout slot holds exactly that value, and when it does
not the build aborts instead of truncating. -/
theorem C9_layout_word (tcx : TyCtxt) (ty : Ty) (hsized : ty.isSized = true) :
    layoutWord ty = (ty.sizeBytes <<< 1) % 2 ^ 64 ||| ty.alignBytes ∧
      (layoutWord ty < 2 ^ (8 * tcx.ptrSizeBytes) →
        vtable_blob tcx (ty, none) =
          .ok [some (dropWord tcx ty),
            some (Scalar.uint (layoutWord ty) tcx.ptrSizeBytes)]) ∧
      (2 ^ (8 * tcx.ptrSizeBytes) ≤ layoutWord ty →
        vtable_blob tcx (ty, none) = .error .scalarTooBig) := by
  refine ⟨rfl, fun hfit => vtable_blob_none tcx ty hsized hfit, fun hbig => ?_⟩
  have hl : buildWords tcx ty [.metadataTyLayout] = .error .scalarTooBig := by
    rw [buildWords_cons]
    simp only [entryWordE, Scalar.from_uint]
    rw [if_neg (by omega)]
  rw [vtable_blob_eq]
  simp only [schemaOf, count_vtable_entries, COMMON_VTABLE_ENTRIES, hsized]
  norm_num
  rw [buildWords_cons, hl]
  rfl

/-- C9 witness: a 2 ^ 40-byte type on a 32-bit target: the packed word
2 ^ 41 ||| 1 exceeds the 32-bit pointer width and the build aborts. -/
theorem C9_witness :
    vtable_blob tcx32 (tyBig, none) = .error .scalarTooBig :=
  (C9_layout_word tcx32 tyBig rfl).2.2 (by decide)

/-- C10: get_vtable_metadata_index returns the declared entry count minus
the common header length 2; for trait = None it returns 0, the
drop-in-place offset, which is not the layout offset 1. -/
theorem C10_metadata_index (tcx : TyCtxt) (otr : Option TraitRef) :
    get_vtable_metadata_index tcx otr = count_vtable_entries tcx otr - 2 ∧
      get_vtable_metadata_index tcx none = VTABLE_DROPINPLACE_OFFSET ∧
      VTABLE_DROPINPLACE_OFFSET = 0 ∧ VTABLE_LAYOUT_OFFSET = 1 ∧
      VTABLE_DROPINPLACE_OFFSET ≠ VTABLE_LAYOUT_OFFSET :=
  ⟨rfl, rfl, rfl, rfl, by decide⟩

end Vtable
